import Mathlib

/-!
Shallow embedding of `src/build_spectests.rs`, the build-time generator that
converts WebAssembly spec-test scripts (`.wast`) into Rust test source files.

Modelling conventions:
* The `wabt` script parser is external; the generator consumes the parsed,
  ordered command stream, so the embedding takes the stream as a
  `List Command` (the `script_parser` field of the Rust struct is replaced by
  that explicit list).
* The external binary-to-text converter `wasm2wat` is a parameter
  `conv : List Nat → Option String` (`none` models conversion failure, on
  which the Rust code panics via `expect`; the embedding returns `none`).
* The output buffer is modelled as a `List Fragment`, one fragment per
  `push_str` call performed by the generator; `renderFragment` reproduces the
  exact text of the corresponding Rust `format!` template, and `finalize`
  concatenates the rendered fragments, matching the single accumulated
  `String` of the source.
* Machine integers: `last_module : i32` becomes `Int` (it only ever counts
  module commands, so overflow is irrelevant); `last_line : u64` becomes
  `Nat`; module binaries `Vec<u8>` become `List Nat`.
* `HashMap<i32, Vec<String>>` becomes an association list with the same
  keyed-access semantics (`entry/or_insert/push`, `remove`); the map is never
  iterated, only accessed by key, so this is observation-equivalent.
* The Rust `{:?}` formatter for strings and the Rust string-literal escape
  rules are external (std / language semantics); they are modelled by
  `renderStrDebug` and `rustUnescape` below, covering the escapes relevant
  here (quote, backslash, n, t, r, 0).
-/

namespace BuildSpectests

/-- Typed literal value of the scripting format (external `wabt::script::Value`).
Integer payloads are `Int` (the Rust `{:?}` rendering of `i32`/`i64` is the
signed decimal, matching `toString : Int → String`); float payloads are
modelled as the host formatter's `{:?}` rendering of the `f32`/`f64`, since
the generator only ever passes float values through that formatter. -/
inductive Value where
  | I32 (v : Int)
  | I64 (v : Int)
  | F32 (v : String)
  | F64 (v : String)
deriving DecidableEq, Repr

/-- Rust `{:?}` rendering of the payload of a `Value`. -/
def dbgRender : Value → String
  | .I32 v => toString v
  | .I64 v => toString v
  | .F32 v => v
  | .F64 v => v

/-- Embedding of `fn wabt2rust_type(v: &Value) -> String`. -/
def wabt2rust_type : Value → String
  | .I32 _ => "i32"
  | .I64 _ => "i64"
  | .F32 _ => "f32"
  | .F64 _ => "f64"

/-- Embedding of `fn wabt2rust_value(v: &Value) -> String`: the debug
rendering of the payload followed by an as-cast naming the type. -/
def wabt2rust_value : Value → String
  | .I32 v => toString v ++ " as i32"
  | .I64 v => toString v ++ " as i64"
  | .F32 v => v ++ " as f32"
  | .F64 v => v ++ " as f64"

/-- External `wabt::script::Action`. -/
inductive Action where
  | Invoke (module : Option String) (field : String) (args : List Value)
  | Get (module : Option String) (field : String)
deriving DecidableEq, Repr

/-- External `wabt::script::CommandKind`; all twelve variants of the Rust
enum, with module binaries as byte lists. -/
inductive CommandKind where
  | Module (module : List Nat) (name : Option String)
  | AssertReturn (action : Action) (expected : List Value)
  | AssertReturnCanonicalNan (action : Action)
  | AssertReturnArithmeticNan (action : Action)
  | AssertTrap (action : Action) (message : String)
  | AssertInvalid (module : List Nat) (message : String)
  | AssertMalformed (module : List Nat) (message : String)
  | AssertUninstantiable (module : List Nat) (message : String)
  | AssertExhaustion (action : Action)
  | AssertUnlinkable (module : List Nat) (message : String)
  | Register (name : Option String) (as_name : String)
  | PerformAction (action : Action)
deriving DecidableEq, Repr

/-- External `wabt::script::Command`: a command kind with its source line. -/
structure Command where
  line : Nat
  kind : CommandKind
deriving DecidableEq, Repr

/-- Rust's `str::replace` for a single-character pattern: every occurrence of
`pat` is replaced by `repl` (single characters cannot overlap, so this is
exactly the leftmost non-overlapping replacement `str::replace` performs). -/
def replaceChar (pat : Char) (repl : List Char) : List Char → List Char
  | [] => []
  | c :: rest => (if c = pat then repl else [c]) ++ replaceChar pat repl rest

/-- The re-indentation step `wast_string.replace("\n", "\n    ")` of
`visit_module`. -/
def reindentChars (l : List Char) : List Char :=
  replaceChar '\n' ['\n', ' ', ' ', ' ', ' '] l

/-- The full escaping applied by `visit_module`:
`wast_string.replace("\n", "\n    ").replace("\"", "\\\"")`. -/
def escapeChars (l : List Char) : List Char :=
  replaceChar '\x22' ['\\', '\x22'] (reindentChars l)

/-- String-level wrapper for `escapeChars`. -/
def escapeModuleString (s : String) : String :=
  String.mk (escapeChars s.data)

/-- String-level wrapper for `reindentChars`. -/
def reindentString (s : String) : String :=
  String.mk (reindentChars s.data)

/-- Decoding of a single Rust string-literal escape sequence `\e` (the escapes
of the target language relevant to the generated file). -/
def unescapeCode (e : Char) : Option Char :=
  if e = '\x22' then some '\x22'
  else if e = '\\' then some '\\'
  else if e = 'n' then some '\n'
  else if e = 't' then some '\t'
  else if e = 'r' then some '\r'
  else if e = '0' then some (Char.ofNat 0)
  else none

/-- Interpretation of a Rust string-literal body by the target language:
backslash starts an escape sequence (an invalid or dangling escape makes the
literal ill-formed, returning `none`); every other character, including a raw
newline, denotes itself. Models the external language semantics the
generated file is read back with. -/
def rustUnescape : List Char → Option (List Char)
  | [] => some []
  | c :: rest =>
    if c = '\\' then
      match rest with
      | [] => none
      | e :: rest' =>
        match unescapeCode e with
        | none => none
        | some d => (rustUnescape rest').map (fun l => d :: l)
    else
      (rustUnescape rest).map (fun l => c :: l)

/-- The provenance banner `static BANNER` from the source. -/
def BANNER : String :=
  "// Rust test file autogenerated with cargo build (src/build_spectests.rs).\n// Please do NOT modify it by hand, as it will be reseted on next build.\n"

/-- One fragment per `push_str` performed by the generator; the fields are the
values the Rust code substitutes into the corresponding `format!` template. -/
inductive Fragment where
  | banner
  | header (filename : String)
  | lineComment (line : Nat)
  | testModule (module : Int) (calls : List String)
  | createModule (module : Int) (escaped : String)
  | assertInvalidTest (line : Nat) (binary : List Nat)
  | assertMalformedTest (line : Nat) (binary : List Nat)
  | wrapper (funcName : String) (field : String) (argsTypes : List String)
      (funcReturn : String) (argsValues : List String) (expectedResult : String)
deriving DecidableEq, Repr

/-- Embedding of `struct WastTestGenerator`. The `script_parser` field is replaced by the
explicit command list fed to `consume`; `module_calls : HashMap<i32,
Vec<String>>` is an association list with the same keyed-access semantics. -/
structure GenState where
  last_module : Int
  last_line : Nat
  filename : String
  module_calls : List (Int × List String)
  buffer : List Fragment
deriving DecidableEq, Repr

/-- The `HashMap` read access: the vector stored at key `k`, or the fresh empty
vector `or_insert(Vec::new())` would provide. -/
def alistGet (m : List (Int × List String)) (k : Int) : List String :=
  match m.find? (fun p => p.1 == k) with
  | some p => p.2
  | none => []

/-- Embedding of `HashMap::remove`. -/
def alistRemove (m : List (Int × List String)) (k : Int) : List (Int × List String) :=
  m.filter (fun p => p.1 != k)

/-- Embedding of `entry(k).or_insert(Vec::new()).push(v)`. -/
def alistPush (m : List (Int × List String)) (k : Int) (v : String) :
    List (Int × List String) :=
  match m with
  | [] => [(k, [v])]
  | p :: rest => if p.1 == k then (p.1, p.2 ++ [v]) :: rest else p :: alistPush rest k v

/-- Embedding of `WastTestGenerator::new` (the parts that set up generator state;
reading the script file and constructing the parser are external). -/
def initState (filename : String) : GenState :=
  { last_module := 0, last_line := 0, filename := filename,
    module_calls := [], buffer := [] }

/-- The per-call formatting used by `flush_module_calls`: the call string
followed by the result-object argument list and a semicolon. -/
def fmtCall (c : String) : String := c ++ "(&result_object);"

/-- Embedding of `WastTestGenerator::flush_module_calls`. -/
def flush_module_calls (s : GenState) (module : Int) : GenState :=
  let calls := (alistGet s.module_calls module).map fmtCall
  let s1 := if calls.length > 0 then
      { s with buffer := s.buffer ++ [Fragment.testModule module calls] }
    else s
  { s1 with module_calls := alistRemove s1.module_calls module }

/-- The wrapper identifier: the letter l, the line number, and the fixed
assert-return-invoke suffix. -/
def wrapperName (line : Nat) : String :=
  "l" ++ toString line ++ "_assert_return_invoke"

/-- Embedding of `WastTestGenerator::visit_module`; `conv` is the external `wasm2wat`
service (`none` = conversion failure, on which the Rust code panics). -/
def visit_module (conv : List Nat → Option String) (s : GenState)
    (module : List Nat) (_name : Option String) : Option GenState :=
  match conv module with
  | none => none
  | some wast_string =>
    let s1 := flush_module_calls s s.last_module
    let s2 := { s1 with last_module := s1.last_module + 1 }
    some { s2 with
      buffer := s2.buffer ++
        [Fragment.createModule s2.last_module (escapeModuleString wast_string)] }

/-- Embedding of `WastTestGenerator::visit_assert_invalid`. -/
def visit_assert_invalid (s : GenState) (module : List Nat) : GenState :=
  { s with buffer := s.buffer ++ [Fragment.assertInvalidTest s.last_line module] }

/-- Embedding of `WastTestGenerator::visit_assert_malformed`. -/
def visit_assert_malformed (s : GenState) (module : List Nat) : GenState :=
  { s with buffer := s.buffer ++ [Fragment.assertMalformedTest s.last_line module] }

/-- Embedding of `WastTestGenerator::visit_assert_return`. -/
def visit_assert_return (s : GenState) (action : Action) (expected : List Value) :
    GenState :=
  match action with
  | Action.Invoke _module field args =>
    let func_return := match expected with
      | [] => ""
      | v :: _ => " -> " ++ wabt2rust_type v
    let expected_result := match expected with
      | [] => "()"
      | v :: _ => wabt2rust_value v
    let args_types := args.map wabt2rust_type ++ ["&VmCtx"]
    let args_values := args.map wabt2rust_value ++ ["&vm_context"]
    let func_name := wrapperName s.last_line
    let s1 := { s with
      buffer := s.buffer ++
        [Fragment.wrapper func_name field args_types func_return args_values
          expected_result] }
    { s1 with module_calls := alistPush s1.module_calls s1.last_module func_name }
  | _ => s

/-- Embedding of `WastTestGenerator::visit_command`; the variants handled with a bare
comment in the source leave the state unchanged. -/
def visit_command (conv : List Nat → Option String) (s : GenState) :
    CommandKind → Option GenState
  | CommandKind.Module m name => visit_module conv s m name
  | CommandKind.AssertReturn action expected =>
      some (visit_assert_return s action expected)
  | CommandKind.AssertReturnCanonicalNan _ => some s
  | CommandKind.AssertReturnArithmeticNan _ => some s
  | CommandKind.AssertTrap _ _ => some s
  | CommandKind.AssertInvalid m _ => some (visit_assert_invalid s m)
  | CommandKind.AssertMalformed m _ => some (visit_assert_malformed s m)
  | CommandKind.AssertUninstantiable _ _ => some s
  | CommandKind.AssertExhaustion _ => some s
  | CommandKind.AssertUnlinkable _ _ => some s
  | CommandKind.Register _ _ => some s
  | CommandKind.PerformAction _ => some s

/-- The command loop of `WastTestGenerator::consume`: record the line, push
the `// Line {}` comment, visit the command. -/
def consumeCommands (conv : List Nat → Option String) :
    GenState → List Command → Option GenState
  | s, [] => some s
  | s, c :: rest =>
    let s1 : GenState := { s with
      last_line := c.line,
      buffer := s.buffer ++ [Fragment.lineComment c.line] }
    match visit_command conv s1 c.kind with
    | none => none
    | some s2 => consumeCommands conv s2 rest

/-- The trailing loop of `consume`: `for n in 1..self.last_module + 1 {
self.flush_module_calls(n); }`. -/
def flushAll (s : GenState) : GenState :=
  (List.range s.last_module.toNat).foldl
    (fun st i => flush_module_calls st (Int.ofNat i + 1)) s

/-- Embedding of `WastTestGenerator::consume`: push the banner and the header, run the
command loop, then flush modules `1..=last_module`. -/
def consume (conv : List Nat → Option String) (s0 : GenState)
    (cmds : List Command) : Option GenState :=
  let s := { s0 with
    buffer := s0.buffer ++ [Fragment.banner, Fragment.header s0.filename] }
  (consumeCommands conv s cmds).map flushAll

/-- Rust `Vec::join` semantics. -/
def joinSep (sep : String) : List String → String
  | [] => ""
  | [a] => a
  | a :: rest => a ++ sep ++ joinSep sep rest

/-- Plain concatenation of a list of strings. -/
def catAll : List String → String
  | [] => ""
  | a :: rest => a ++ catAll rest

/-- Rust `{:?}` rendering of a `Vec<u8>`. -/
def renderBytes (bs : List Nat) : String :=
  "[" ++ joinSep ", " (bs.map toString) ++ "]"

/-- Model of Rust's `{:?}` escape of a single character inside a string
(quote, backslash, and the control characters that can occur here). -/
def renderCharDebug (c : Char) : String :=
  if c = '\x22' then "\\\""
  else if c = '\\' then "\\\\"
  else if c = '\n' then "\\n"
  else if c = '\t' then "\\t"
  else if c = '\r' then "\\r"
  else String.singleton c

/-- Model of Rust's `{:?}` rendering of a string value. -/
def renderStrDebug (s : String) : String :=
  "\"" ++ catAll (s.data.map renderCharDebug) ++ "\""

/-- The exact text each fragment contributes to the buffer, transcribed from
the `format!` templates of the source (braces written with x7b/x7d escapes). -/
def renderFragment : Fragment → String
  | Fragment.banner => BANNER
  | Fragment.header filename =>
      "// Test based on spectests/" ++ filename ++
      "\nuse crate::webassembly::\x7binstantiate, compile, ImportObject, ResultObject, VmCtx, Export\x7d;\nuse super::_common::spectest_importobject;\nuse wabt::wat2wasm;\n\n"
  | Fragment.lineComment line => "\n// Line " ++ toString line ++ "\n"
  | Fragment.testModule module calls =>
      "\n#[test]\nfn test_module_" ++ toString module ++ "() \x7b\n    let result_object = create_module_" ++
      toString module ++ "();\n    // We group the calls together\n    " ++
      joinSep "\n    " calls ++ "\n\x7d\n"
  | Fragment.createModule module escaped =>
      "fn create_module_" ++ toString module ++ "() -> ResultObject \x7b\n    let module_str = \"" ++
      escaped ++
      "\";\n    let wasm_binary = wat2wasm(module_str.as_bytes()).expect(\"WAST not valid or malformed\");\n    instantiate(wasm_binary, spectest_importobject()).expect(\"WASM can\x27t be instantiated\")\n\x7d\n"
  | Fragment.assertInvalidTest line binary =>
      "#[test]\nfn l" ++ toString line ++ "_assert_invalid() \x7b\n    let wasm_binary = " ++
      renderBytes binary ++
      ";\n    let compilation = compile(wasm_binary.to_vec());\n    assert!(compilation.is_err(), \"WASM should not compile as is invalid\");\n\x7d\n"
  | Fragment.assertMalformedTest line binary =>
      "#[test]\nfn l" ++ toString line ++ "_assert_malformed() \x7b\n    let wasm_binary = " ++
      renderBytes binary ++
      ";\n    let compilation = compile(wasm_binary.to_vec());\n    assert!(compilation.is_err(), \"WASM should not compile as is malformed\");\n\x7d\n"
  | Fragment.wrapper funcName field argsTypes funcReturn argsValues expectedResult =>
      "fn " ++ funcName ++ "(result_object: &ResultObject) \x7b\n    let func_index = match result_object.module.info.exports.get(" ++
      renderStrDebug field ++
      ") \x7b\n        Some(&Export::Function(index)) => index,\n        _ => panic!(\"Function not found\"),\n    \x7d;\n    let invoke_fn: fn(" ++
      joinSep ", " argsTypes ++ ")" ++ funcReturn ++
      " = get_instance_function!(result_object.instance, func_index);\n    let vm_context = result_object.instance.generate_context();\n    let result = invoke_fn(" ++
      joinSep ", " argsValues ++ ");\n    assert_eq!(result, " ++ expectedResult ++
      ");\n\x7d\n"

/-- Embedding of `WastTestGenerator::finalize`: the accumulated buffer text. -/
def finalize (s : GenState) : String :=
  catAll (s.buffer.map renderFragment)

/-- File metadata visible to the controller: content plus last-modified time
(`SystemTime` modelled as `Nat`, only compared by `<`). -/
structure FsFile where
  content : String
  modified : Nat
deriving DecidableEq, Repr

/-- The file-system facts `wast_to_rust` consults for one script: the script
file's modification time (the script must exist, its metadata is read with
`expect`) and the generated output file, absent or present. -/
structure ScriptFs where
  wastModified : Nat
  output : Option FsFile
deriving DecidableEq, Repr

/-- The staleness test of `wast_to_rust`: `Err(_) => true`, otherwise
`output.modified() < wast_modified`. -/
def should_modify (fs : ScriptFs) : Bool :=
  match fs.output with
  | some m => decide (m.modified < fs.wastModified)
  | none => true

/-- Embedding of `fn wast_to_rust` (the decision-and-write part; path construction and the
`_common` reserved-name check are external path plumbing). Returns the
file-system state after the call together with whether the output file was
written; `none` models a generator panic (unparsable module conversion). -/
def wast_to_rust (conv : List Nat → Option String) (filename : String)
    (cmds : List Command) (fs : ScriptFs) (now : Nat) :
    Option (ScriptFs × Bool) :=
  if should_modify fs then
    match consume conv (initState filename) cmds with
    | none => none
    | some g => some ({ fs with output := some ⟨finalize g, now⟩ }, true)
  else
    some (fs, false)

/-- The fixed non-generated entry inserted at position 1 of the index file. -/
def commonModLine : String :=
  "// The _common module is not autogenerated, as it provides common functions for the spectests\nmod _common;"

/-- The freshly computed content of `src/spectests/mod.rs` built by `main`:
`mod {};` lines for the configured modules, with the banner and the `_common`
entry inserted in front, an empty element pushed at the end, joined by
newlines. -/
def modfileContent (modules : List String) : String :=
  joinSep "\n"
    ([BANNER, commonModLine] ++ modules.map (fun m => "mod " ++ m ++ ";") ++ [""])

/-- The index-file update at the end of `main`: read the current content
(`fs::read(..).unwrap()`; `none` models the fatal panic when the file is
absent), then write only if it differs from the computed content. Returns
the resulting on-disk content and whether a write happened. -/
def main_write_modfile (modules : List String) (onDisk : Option String) :
    Option (String × Bool) :=
  match onDisk with
  | none => none
  | some src =>
    let modfile := modfileContent modules
    if src ≠ modfile then some (modfile, true) else some (src, false)

/-!  Specification-side functions used to state the ledger/flush claims. -/

/-- Number of module-definition commands in a stream. -/
def countModules : List Command → Nat
  | [] => 0
  | c :: rest =>
    (match c.kind with
      | CommandKind.Module _ _ => 1
      | _ => 0) + countModules rest

/-- The wrapper identifiers attributed to module index `i` when scanning the
stream with the module counter starting at `M`: an assert-return with an
invoke action contributes to the index of the most recently defined module. -/
def callsFrom (M : Int) (i : Int) : List Command → List String
  | [] => []
  | c :: rest =>
    match c.kind with
    | CommandKind.Module _ _ => callsFrom (M + 1) i rest
    | CommandKind.AssertReturn act _ =>
      match act with
      | Action.Invoke _ _ _ =>
          (if M = i then [wrapperName c.line] else []) ++ callsFrom M i rest
      | _ => callsFrom M i rest
    | _ => callsFrom M i rest

/-- Wrapper identifiers of the ledger entry for module index `i`, in the
order the corresponding assert-return commands appear in the script. -/
def callsForModule (cmds : List Command) (i : Int) : List String :=
  callsFrom 0 i cmds

/-- The aggregating tests emitted while the command loop runs, as
(module index, raw wrapper names) pairs, starting from module counter `M`
with `pending` the current module's accumulated ledger entry. -/
def runTests (M : Int) (pending : List String) : List Command → List (Int × List String)
  | [] => []
  | c :: rest =>
    match c.kind with
    | CommandKind.Module _ _ =>
        (if pending = [] then [] else [(M, pending)]) ++ runTests (M + 1) [] rest
    | CommandKind.AssertReturn act _ =>
      match act with
      | Action.Invoke _ _ _ => runTests M (pending ++ [wrapperName c.line]) rest
      | _ => runTests M pending rest
    | _ => runTests M pending rest

/-- The ledger entry of the current (last) module after the command loop. -/
def runPending (pending : List String) : List Command → List String
  | [] => pending
  | c :: rest =>
    match c.kind with
    | CommandKind.Module _ _ => runPending [] rest
    | CommandKind.AssertReturn act _ =>
      match act with
      | Action.Invoke _ _ _ => runPending (pending ++ [wrapperName c.line]) rest
      | _ => runPending pending rest
    | _ => runPending pending rest

/-- All aggregating tests a successful run over `cmds` emits, in emission
order: those emitted at module boundaries, then the end-of-script flush of
modules `1..=N`, which can only find the last module's entry. -/
def allTests (cmds : List Command) : List (Int × List String) :=
  runTests 0 [] cmds ++
    (if 1 ≤ (countModules cmds : Int) ∧ runPending [] cmds ≠ [] then
      [((countModules cmds : Int), runPending [] cmds)]
    else [])

/-- The `testModule` fragments of a buffer, as (module index, formatted
calls) pairs. -/
def testFrags : List Fragment → List (Int × List String)
  | [] => []
  | Fragment.testModule m calls :: rest => (m, calls) :: testFrags rest
  | _ :: rest => testFrags rest

/-- Select the entries of a test list that belong to module index `i`. -/
def selAt (i : Int) (l : List (Int × List String)) : List (List String) :=
  l.filterMap (fun p => if p.1 = i then some p.2 else none)

/-- The call lists of the aggregating test functions for module index `i`
present in a buffer. -/
def testsAtIdx (i : Int) (buf : List Fragment) : List (List String) :=
  selAt i (testFrags buf)

/-- Formatting applied to a raw test entry when it is emitted. -/
def mapCalls (p : Int × List String) : Int × List String :=
  (p.1, p.2.map fmtCall)

/-- The command kinds the generator deliberately skips. -/
def unsupportedKind : CommandKind → Bool
  | CommandKind.AssertReturnCanonicalNan _ => true
  | CommandKind.AssertReturnArithmeticNan _ => true
  | CommandKind.AssertTrap _ _ => true
  | CommandKind.AssertUninstantiable _ _ => true
  | CommandKind.AssertExhaustion _ => true
  | CommandKind.AssertUnlinkable _ _ => true
  | CommandKind.Register _ _ => true
  | CommandKind.PerformAction _ => true
  | _ => false

/-- Line number of the last command, defaulting to `d`. -/
def lastLineOf (d : Nat) : List Command → Nat
  | [] => d
  | c :: rest => lastLineOf c.line rest

/-- Run-time invariant of the generator state: the module counter is
non-negative and the ledger holds at most the current module's entry (every
older entry was removed when its module boundary was flushed). -/
def Inv (s : GenState) : Prop :=
  0 ≤ s.last_module ∧
    (s.module_calls = [] ∨ ∃ cs, s.module_calls = [(s.last_module, cs)])

/-- The state after the bookkeeping the command loop performs before
dispatching one command: record the line and push the line comment. -/
def stepState (s : GenState) (line : Nat) : GenState :=
  { s with last_line := line, buffer := s.buffer ++ [Fragment.lineComment line] }

/-- The state `visit_module` produces on a successful conversion to `w`. -/
def moduleState (s : GenState) (w : String) : GenState :=
  { flush_module_calls s s.last_module with
    last_module := (flush_module_calls s s.last_module).last_module + 1,
    buffer := (flush_module_calls s s.last_module).buffer ++
      [Fragment.createModule ((flush_module_calls s s.last_module).last_module + 1)
        (escapeModuleString w)] }

/-- The induction conclusion for the command loop: the invariant is preserved,
the module counter advances by the number of module commands, the current
ledger entry is the one the specification trace computes, and the aggregating
tests added to the buffer are exactly the specification trace's tests. -/
def SpecConcl (s s' : GenState) (cmds : List Command) : Prop :=
  Inv s' ∧
  s'.last_module = s.last_module + (countModules cmds : Int) ∧
  alistGet s'.module_calls s'.last_module =
    runPending (alistGet s.module_calls s.last_module) cmds ∧
  testFrags s'.buffer = testFrags s.buffer ++
    (runTests s.last_module (alistGet s.module_calls s.last_module) cmds).map mapCalls

/-- The generator state right after `consume` pushes the banner and header,
before the command loop starts. -/
def startState (filename : String) : GenState :=
  { initState filename with buffer := [Fragment.banner, Fragment.header filename] }

/-!  Concrete inputs used by witnesses and counterexamples. -/

/-- A conversion service that always fails (never consulted by the scripts it
is used with). -/
def convNone : List Nat → Option String := fun _ => none

/-- A conversion service returning a fixed minimal module text. -/
def convSimple : List Nat → Option String := fun _ => some "(module)"

/-- One module followed by one assert-return invoking `sq 5 == 25`. -/
def cmdsW : List Command :=
  [⟨1, CommandKind.Module [0] none⟩,
   ⟨2, CommandKind.AssertReturn (Action.Invoke none "sq" [Value.I32 5]) [Value.I32 25]⟩]

/-- The final generator state for `cmdsW`. -/
def sW : GenState :=
  { last_module := 1, last_line := 2, filename := "w.wast", module_calls := [],
    buffer := [Fragment.banner, Fragment.header "w.wast",
      Fragment.lineComment 1, Fragment.createModule 1 "(module)",
      Fragment.lineComment 2,
      Fragment.wrapper "l2_assert_return_invoke" "sq" ["i32", "&VmCtx"] " -> i32"
        ["5 as i32", "&vm_context"] "25 as i32",
      Fragment.testModule 1 ["l2_assert_return_invoke(&result_object);"]] }

/-- A script whose only command is an assert-return preceding any module
definition, with no module definition at all. -/
def cmdsC0 : List Command :=
  [⟨1, CommandKind.AssertReturn (Action.Invoke none "f" []) []⟩]

/-- An assert-return preceding the first module definition. -/
def cmdsC1 : List Command :=
  [⟨1, CommandKind.AssertReturn (Action.Invoke none "g" []) []⟩,
   ⟨2, CommandKind.Module [0] none⟩]

/-- The final generator state for `cmdsC1`. -/
def sC1 : GenState :=
  { last_module := 1, last_line := 2, filename := "c1.wast", module_calls := [],
    buffer := [Fragment.banner, Fragment.header "c1.wast",
      Fragment.lineComment 1,
      Fragment.wrapper "l1_assert_return_invoke" "g" ["&VmCtx"] "" ["&vm_context"] "()",
      Fragment.lineComment 2,
      Fragment.testModule 0 ["l1_assert_return_invoke(&result_object);"],
      Fragment.createModule 1 "(module)"] }

/-- A script containing only unsupported command kinds. -/
def cmdsU : List Command :=
  [⟨1, CommandKind.Register none "x"⟩,
   ⟨3, CommandKind.AssertTrap (Action.Get none "g") "msg"⟩,
   ⟨4, CommandKind.AssertExhaustion (Action.Get none "h")⟩]

/-!  Theorems. -/

theorem joinSep_cons (sep a : String) (L : List String) (h : L ≠ []) :
    joinSep sep (a :: L) = a ++ sep ++ joinSep sep L := by
  cases L with
  | nil => exact absurd rfl h
  | cons b L' => rfl

theorem joinSep_append_nil (L : List String) :
    joinSep "\n" (L ++ [""]) = catAll (L.map (fun a => a ++ "\n")) := by
  induction L with
  | nil => rfl
  | cons a L' ih =>
    rw [List.cons_append, joinSep_cons _ _ _ (by simp), ih]
    simp [catAll]

/-- C9: the Type Mapper is total over the four supported value kinds (it is a
Lean function, hence total by construction), returns the matching source type
name, and returns the literal expression consisting of the rendered value
annotated with that type via an `as` cast. -/
theorem model_type_mapper (v : Value) :
    wabt2rust_type v =
      (match v with
        | Value.I32 _ => "i32"
        | Value.I64 _ => "i64"
        | Value.F32 _ => "f32"
        | Value.F64 _ => "f64") ∧
    wabt2rust_value v = dbgRender v ++ " as " ++ wabt2rust_type v := by
  cases v <;> exact ⟨rfl, by rw [String.append_assoc]; rfl⟩

/-- C3: for every assert-return with an invocation action, the emitted
wrapper's parameter type list is the Type-Mapper type names of the argument
literals in order followed by the execution-context parameter; its return
type annotation comes from the first expected value when the expected list is
non-empty and is absent otherwise; and the emitted assertion compares only
against the Type-Mapper literal of the first expected value (unit when the
expected list is empty), regardless of how many expected values follow. -/
theorem model_wrapper_emission (s : GenState) (mo : Option String)
    (field : String) (args : List Value) (expected : List Value) :
    (visit_assert_return s (Action.Invoke mo field args) expected).buffer =
      s.buffer ++
        [Fragment.wrapper (wrapperName s.last_line) field
          (args.map wabt2rust_type ++ ["&VmCtx"])
          ((expected.head?.map (fun v => " -> " ++ wabt2rust_type v)).getD "")
          (args.map wabt2rust_value ++ ["&vm_context"])
          ((expected.head?.map wabt2rust_value).getD "()")] := by
  cases expected <;> rfl

/-- C10: if the aggregating index file is absent when the controller reaches
the index-update step, the run aborts (models the `fs::read(..).unwrap()`
panic) and the index file is never created from absence. -/
theorem model_modfile_absent (modules : List String) :
    main_write_modfile modules none = none := rfl

/-- C5: the index file is rewritten exactly when its current content differs
byte-for-byte from the freshly computed content, and that content is the
banner, the fixed `_common` inclusion directive, and one `mod {};` directive
per configured script in order, each line terminated by a newline. -/
theorem model_modfile_update (modules : List String) (src : String) :
    main_write_modfile modules (some src) =
      (if src = modfileContent modules then some (src, false)
       else some (modfileContent modules, true)) ∧
    modfileContent modules =
      BANNER ++ "\n" ++ commonModLine ++ "\n" ++
        catAll (modules.map (fun m => "mod " ++ m ++ ";\n")) := by
  constructor
  · unfold main_write_modfile
    by_cases h : src = modfileContent modules
    · simp [h]
    · simp [h]
  · have h1 : modfileContent modules =
        BANNER ++ "\n" ++
          joinSep "\n"
            (commonModLine :: (modules.map (fun m => "mod " ++ m ++ ";") ++ [""])) :=
      joinSep_cons _ _ _ (by simp)
    have h2 : joinSep "\n"
          (commonModLine :: (modules.map (fun m => "mod " ++ m ++ ";") ++ [""])) =
        commonModLine ++ "\n" ++
          joinSep "\n" (modules.map (fun m => "mod " ++ m ++ ";") ++ [""]) :=
      joinSep_cons _ _ _ (by simp)
    have hfun : ((fun a => a ++ "\n") ∘ fun m => "mod " ++ m ++ ";") =
        fun m => "mod " ++ m ++ ";\n" := by
      funext m
      show ("mod " ++ m ++ ";") ++ "\n" = "mod " ++ m ++ ";\n"
      rw [String.append_assoc]
      rfl
    rw [h1, h2, joinSep_append_nil, List.map_map, hfun]
    simp [String.append_assoc]

/-- C4: the Regeneration Controller regenerates and overwrites the output
exactly when the output is stale (absent, or last modified strictly earlier
than the script); when not stale, the generator is not run and the output
file is left untouched. -/
theorem model_staleness (conv : List Nat → Option String) (filename : String)
    (cmds : List Command) (fs : ScriptFs) (now : Nat) :
    ((fs.output = none ∨ ∃ f, fs.output = some f ∧ f.modified < fs.wastModified) →
      wast_to_rust conv filename cmds fs now =
        (consume conv (initState filename) cmds).map
          (fun g => ({ fs with output := some ⟨finalize g, now⟩ }, true))) ∧
    (¬ (fs.output = none ∨ ∃ f, fs.output = some f ∧ f.modified < fs.wastModified) →
      wast_to_rust conv filename cmds fs now = some (fs, false)) := by
  constructor
  · intro h
    have hs : should_modify fs = true := by
      rcases h with h | ⟨f, hf, hlt⟩
      · simp [should_modify, h]
      · simp [should_modify, hf, hlt]
    simp only [wast_to_rust, hs, if_true]
    cases consume conv (initState filename) cmds <;> rfl
  · intro h
    have hs : should_modify fs = false := by
      cases hout : fs.output with
      | none => exact absurd (Or.inl hout) h
      | some f =>
        simp only [should_modify, hout, decide_eq_false_iff_not]
        intro hlt
        exact h (Or.inr ⟨f, hout, hlt⟩)
    simp [wast_to_rust, hs]

theorem model_staleness_witness :
    (¬ ((⟨5, some ⟨"old", 7⟩⟩ : ScriptFs).output = none ∨
        ∃ f, (⟨5, some ⟨"old", 7⟩⟩ : ScriptFs).output = some f ∧
          f.modified < (⟨5, some ⟨"old", 7⟩⟩ : ScriptFs).wastModified)) ∧
    wast_to_rust convNone "t.wast" [] ⟨5, some ⟨"old", 7⟩⟩ 9 =
      some (⟨5, some ⟨"old", 7⟩⟩, false) := by
  have hns : ¬ ((⟨5, some ⟨"old", 7⟩⟩ : ScriptFs).output = none ∨
      ∃ f, (⟨5, some ⟨"old", 7⟩⟩ : ScriptFs).output = some f ∧
        f.modified < (⟨5, some ⟨"old", 7⟩⟩ : ScriptFs).wastModified) := by
    rintro (h | ⟨f, hf, hlt⟩)
    · simp at h
    · injection hf with e
      subst e
      revert hlt
      decide
  exact ⟨hns, (model_staleness convNone "t.wast" [] ⟨5, some ⟨"old", 7⟩⟩ 9).2 hns⟩

/-- C6: generation is deterministic — two runs over the same parsed command
stream (and the same conversion service) finalize byte-identical buffers; the
generator is a pure function of its inputs. -/
theorem model_determinism (conv : List Nat → Option String) (filename : String)
    (cmds1 cmds2 : List Command) (h : cmds1 = cmds2) :
    (consume conv (initState filename) cmds1).map finalize =
      (consume conv (initState filename) cmds2).map finalize := by
  rw [h]

theorem model_determinism_witness :
    cmdsW = cmdsW ∧
    (consume convSimple (initState "w.wast") cmdsW).map finalize =
      (consume convSimple (initState "w.wast") cmdsW).map finalize :=
  ⟨rfl, model_determinism convSimple "w.wast" cmdsW cmdsW rfl⟩

theorem replaceChar_no_mem (pat : Char) (repl : List Char) (x : Char)
    (hrepl : x ∉ repl) (l : List Char) (h : x ∉ l) :
    x ∉ replaceChar pat repl l := by
  induction l with
  | nil => intro hm; simp [replaceChar] at hm
  | cons c rest ih =>
    have hc : x ≠ c := fun e => h (by rw [e]; exact List.mem_cons_self _ _)
    have hrest : x ∉ rest := fun hm => h (List.mem_cons_of_mem _ hm)
    intro hm
    rcases List.mem_append.1 hm with h1 | h2
    · by_cases hp : c = pat
      · rw [if_pos hp] at h1; exact hrepl h1
      · rw [if_neg hp] at h1; exact hc (List.mem_singleton.1 h1)
    · exact ih hrest h2

theorem rustUnescape_cons_ne (c : Char) (l : List Char) (hc : c ≠ '\\') :
    rustUnescape (c :: l) = (rustUnescape l).map (fun t => c :: t) := by
  cases l with
  | nil => simp [rustUnescape, hc]
  | cons e r => simp [rustUnescape, hc]

theorem rustUnescape_cons_esc (e : Char) (l : List Char) (d : Char)
    (hd : unescapeCode e = some d) :
    rustUnescape ('\\' :: e :: l) = (rustUnescape l).map (fun t => d :: t) := by
  simp [rustUnescape, hd]

theorem rustUnescape_escapeQuotes (l : List Char) (h : '\\' ∉ l) :
    rustUnescape (replaceChar '\x22' ['\\', '\x22'] l) = some l := by
  induction l with
  | nil => rfl
  | cons c rest ih =>
    have hc : c ≠ '\\' := fun e => h (by rw [← e]; exact List.mem_cons_self _ _)
    have hrest : '\\' ∉ rest := fun hm => h (List.mem_cons_of_mem _ hm)
    by_cases hq : c = '\x22'
    · subst hq
      show rustUnescape ('\\' :: '\x22' :: replaceChar '\x22' ['\\', '\x22'] rest) = _
      rw [rustUnescape_cons_esc '\x22' _ '\x22' (by decide), ih hrest]
      rfl
    · show rustUnescape ((if c = '\x22' then ['\\', '\x22'] else [c]) ++ _) = _
      rw [if_neg hq, List.singleton_append, rustUnescape_cons_ne c _ hc, ih hrest]
      rfl

/-- C8 (amended): for every converter text containing no backslash character,
the escaping applied by `visit_module` (quote escaping after continuation-line
re-indentation) is inverted by the target language's string-literal
interpretation: unescaping the emitted literal recovers exactly the
re-indented original text. Texts containing backslashes are not escaped and
do not round-trip (see the counterexample). -/
theorem model_escape_roundtrip (w : String) (h : '\\' ∉ w.data) :
    rustUnescape (escapeModuleString w).data = some (reindentString w).data := by
  have h2 : '\\' ∉ reindentChars w.data :=
    replaceChar_no_mem '\n' ['\n', ' ', ' ', ' ', ' '] '\\' (by decide) w.data h
  exact rustUnescape_escapeQuotes (reindentChars w.data) h2

theorem model_escape_roundtrip_witness :
    ('\\' ∉ ("(module \x22mem\x22)\n(func)").data) ∧
    rustUnescape (escapeModuleString "(module \x22mem\x22)\n(func)").data =
      some (reindentString "(module \x22mem\x22)\n(func)").data :=
  ⟨by decide, model_escape_roundtrip "(module \x22mem\x22)\n(func)" (by decide)⟩

/-- C8 counterexample: the claim as stated fails. The converter text
consisting of a backslash followed by two zero digits (the wat rendering `\00`
of a zero byte inside a string literal, which the binary-to-text converter
produces for data segments) is escaped to itself, and the target language
reads the emitted literal back as a NUL character followed by one digit — not
the re-indented original text. -/
theorem model_escape_cex :
    rustUnescape (escapeModuleString "\x5c00").data ≠
      some (reindentString "\x5c00").data := by decide

theorem visit_command_unsupported (conv : List Nat → Option String)
    (s : GenState) (k : CommandKind) (h : unsupportedKind k = true) :
    visit_command conv s k = some s := by
  cases k <;> simp_all [unsupportedKind, visit_command]

theorem consumeCommands_unsupported (conv : List Nat → Option String)
    (cmds : List Command) :
    ∀ s : GenState, (∀ c ∈ cmds, unsupportedKind c.kind = true) →
      consumeCommands conv s cmds =
        some { s with
          last_line := lastLineOf s.last_line cmds,
          buffer := s.buffer ++ cmds.map (fun c => Fragment.lineComment c.line) } := by
  induction cmds with
  | nil =>
    intro s h
    simp [consumeCommands, lastLineOf]
  | cons c rest ih =>
    intro s h
    have hc := h c (List.mem_cons_self _ _)
    have hrest : ∀ c' ∈ rest, unsupportedKind c'.kind = true :=
      fun c' hm => h c' (List.mem_cons_of_mem _ hm)
    show (match visit_command conv _ c.kind with
      | none => none
      | some s2 => consumeCommands conv s2 rest) = _
    rw [visit_command_unsupported conv _ _ hc]
    show consumeCommands conv
      { s with
        last_line := c.line,
        buffer := s.buffer ++ [Fragment.lineComment c.line] } rest = _
    rw [ih _ hrest]
    simp [lastLineOf, List.append_assoc]

/-- C7: a script whose command stream contains only unsupported command kinds
generates successfully (no error), and the finalized buffer consists of the
banner, the using-declaration header, and the per-command line comments —
in particular no test function, no factory function and no wrapper. -/
theorem model_unsupported_skip (conv : List Nat → Option String)
    (filename : String) (cmds : List Command)
    (h : ∀ c ∈ cmds, unsupportedKind c.kind = true) :
    (consume conv (initState filename) cmds).map GenState.buffer =
      some ([Fragment.banner, Fragment.header filename] ++
        cmds.map (fun c => Fragment.lineComment c.line)) := by
  have hr := consumeCommands_unsupported conv cmds
    { initState filename with buffer := [Fragment.banner, Fragment.header filename] } h
  show ((consumeCommands conv
      { initState filename with buffer := [Fragment.banner, Fragment.header filename] }
      cmds).map flushAll).map GenState.buffer = _
  rw [hr]
  simp [flushAll, initState]

theorem model_unsupported_skip_witness :
    (∀ c ∈ cmdsU, unsupportedKind c.kind = true) ∧
    (consume convNone (initState "b.wast") cmdsU).map GenState.buffer =
      some ([Fragment.banner, Fragment.header "b.wast"] ++
        cmdsU.map (fun c => Fragment.lineComment c.line)) :=
  ⟨by decide, model_unsupported_skip convNone "b.wast" cmdsU (by decide)⟩

theorem testFrags_append (a b : List Fragment) :
    testFrags (a ++ b) = testFrags a ++ testFrags b := by
  induction a with
  | nil => rfl
  | cons f rest ih => cases f <;> simp [testFrags, ih]

theorem alistGet_cons_ne (p : Int × List String) (rest : List (Int × List String))
    (k : Int) (hk : p.1 ≠ k) : alistGet (p :: rest) k = alistGet rest k := by
  unfold alistGet
  rw [List.find?_cons_of_neg _ (by simp [hk])]

theorem alistGet_push (m : List (Int × List String)) (k : Int) (v : String) :
    alistGet (alistPush m k v) k = alistGet m k ++ [v] := by
  induction m with
  | nil => simp [alistPush, alistGet]
  | cons p rest ih =>
    by_cases hk : p.1 = k
    · simp [alistPush, alistGet, hk]
    · have hbeq : (p.1 == k) = false := by simp [hk]
      have hstep : alistPush (p :: rest) k v = p :: alistPush rest k v := by
        simp [alistPush, hbeq]
      rw [hstep, alistGet_cons_ne p _ k hk, alistGet_cons_ne p _ k hk, ih]

theorem flush_noop (s : GenState) (m : Int)
    (h : ∀ p ∈ s.module_calls, p.1 ≠ m) :
    flush_module_calls s m = s := by
  have hfind : s.module_calls.find? (fun p => p.1 == m) = none :=
    List.find?_eq_none.2 (fun p hp => by simp [h p hp])
  have hget : alistGet s.module_calls m = [] := by
    unfold alistGet
    rw [hfind]
  have hrem : alistRemove s.module_calls m = s.module_calls := by
    unfold alistRemove
    apply List.filter_eq_self.2
    intro p hp
    simp [h p hp]
  unfold flush_module_calls
  rw [hget]
  simp [hrem]

theorem flush_self (s : GenState)
    (hmc : s.module_calls = [] ∨ ∃ cs, s.module_calls = [(s.last_module, cs)]) :
    (flush_module_calls s s.last_module).buffer = s.buffer ++
      (if alistGet s.module_calls s.last_module = [] then []
       else [Fragment.testModule s.last_module
          ((alistGet s.module_calls s.last_module).map fmtCall)]) ∧
    (flush_module_calls s s.last_module).module_calls = [] ∧
    (flush_module_calls s s.last_module).last_module = s.last_module ∧
    (flush_module_calls s s.last_module).last_line = s.last_line ∧
    (flush_module_calls s s.last_module).filename = s.filename := by
  rcases hmc with hmc | ⟨cs, hmc⟩
  · unfold flush_module_calls alistGet alistRemove
    simp [hmc]
  · unfold flush_module_calls alistGet alistRemove
    by_cases hcs : cs = []
    · subst hcs
      simp [hmc]
    · have hlen : 0 < cs.length := List.length_pos.2 hcs
      simp [hmc, hcs, hlen]

theorem foldl_flush_noop (K : Int) (n : Nat) (hn : (n : Int) < K) :
    ∀ s : GenState, (∀ p ∈ s.module_calls, p.1 = K) →
      (List.range n).foldl (fun st i => flush_module_calls st (Int.ofNat i + 1)) s = s := by
  induction n with
  | zero => intro s _; rfl
  | succ k ih =>
    intro s h
    rw [List.range_succ, List.foldl_append]
    rw [ih (by omega) s h]
    show flush_module_calls s (Int.ofNat k + 1) = s
    apply flush_noop
    intro p hp
    rw [h p hp]
    simp only [Int.ofNat_eq_coe]
    omega

theorem flushAll_spec (s : GenState) (hInv : Inv s) :
    (flushAll s).buffer = s.buffer ++
      (if 1 ≤ s.last_module ∧ alistGet s.module_calls s.last_module ≠ [] then
        [Fragment.testModule s.last_module
          ((alistGet s.module_calls s.last_module).map fmtCall)]
      else []) ∧
    (1 ≤ s.last_module → (flushAll s).module_calls = []) ∧
    (flushAll s).last_module = s.last_module := by
  obtain ⟨hnn, hmc⟩ := hInv
  cases hn : s.last_module.toNat with
  | zero =>
    have h0 : s.last_module = 0 := by omega
    have hid : flushAll s = s := by
      unfold flushAll
      rw [hn]
      rfl
    rw [hid, h0]
    refine ⟨by simp, by intro h1; omega, rfl⟩
  | succ k =>
    have hK : s.last_module = (k : Int) + 1 := by omega
    have hkeys : ∀ p ∈ s.module_calls, p.1 = s.last_module := by
      rcases hmc with hmc | ⟨cs, hmc⟩
      · rw [hmc]; intro p hp; cases hp
      · rw [hmc]; intro p hp
        rcases List.mem_singleton.1 hp with rfl
        rfl
    have hpre : flushAll s = flush_module_calls s s.last_module := by
      unfold flushAll
      rw [hn, List.range_succ, List.foldl_append]
      rw [foldl_flush_noop s.last_module k (by omega) s hkeys]
      show flush_module_calls s ((k : Int) + 1) = _
      rw [← hK]
    obtain ⟨hbuf, hmc', hlm, _, _⟩ := flush_self s hmc
    rw [hpre, hbuf, hmc', hlm]
    have h1 : 1 ≤ s.last_module := by omega
    refine ⟨?_, fun _ => rfl, rfl⟩
    by_cases hget : alistGet s.module_calls s.last_module = []
    · simp [hget]
    · simp [hget, h1]

theorem testFrags_snoc (b : List Fragment) (f : Fragment)
    (hf : testFrags [f] = []) : testFrags (b ++ [f]) = testFrags b := by
  rw [testFrags_append, hf, List.append_nil]

theorem testFrags_snoc_lineComment (b : List Fragment) (line : Nat) :
    testFrags (b ++ [Fragment.lineComment line]) = testFrags b :=
  testFrags_snoc b _ rfl

theorem testFrags_snoc_createModule (b : List Fragment) (m : Int) (e : String) :
    testFrags (b ++ [Fragment.createModule m e]) = testFrags b :=
  testFrags_snoc b _ rfl

theorem testFrags_snoc_wrapper (b : List Fragment) (n f : String)
    (ts : List String) (r : String) (vs : List String) (er : String) :
    testFrags (b ++ [Fragment.wrapper n f ts r vs er]) = testFrags b :=
  testFrags_snoc b _ rfl

theorem testFrags_snoc_assertInvalid (b : List Fragment) (l : Nat) (m : List Nat) :
    testFrags (b ++ [Fragment.assertInvalidTest l m]) = testFrags b :=
  testFrags_snoc b _ rfl

theorem testFrags_snoc_assertMalformed (b : List Fragment) (l : Nat) (m : List Nat) :
    testFrags (b ++ [Fragment.assertMalformedTest l m]) = testFrags b :=
  testFrags_snoc b _ rfl

theorem alistGet_single (k : Int) (x : List String) : alistGet [(k, x)] k = x := by
  simp [alistGet]

theorem alistPush_shape (mc : List (Int × List String)) (M : Int) (w : String)
    (h : mc = [] ∨ ∃ cs, mc = [(M, cs)]) :
    alistPush mc M w = [(M, alistGet mc M ++ [w])] := by
  rcases h with rfl | ⟨cs, rfl⟩
  · simp [alistPush, alistGet]
  · simp [alistPush, alistGet]

theorem visit_module_none (conv : List Nat → Option String) (s : GenState)
    (m : List Nat) (name : Option String) (hw : conv m = none) :
    visit_module conv s m name = none := by
  unfold visit_module
  rw [hw]

theorem visit_module_eq (conv : List Nat → Option String) (s : GenState)
    (m : List Nat) (name : Option String) (w : String) (hw : conv m = some w) :
    visit_module conv s m name = some (moduleState s w) := by
  unfold visit_module moduleState
  rw [hw]

theorem specConcl_silent (s S2 s' : GenState) (c : Command) (rest : List Command)
    (hM : S2.last_module = s.last_module)
    (hC : S2.module_calls = s.module_calls)
    (hB : testFrags S2.buffer = testFrags s.buffer)
    (hcnt : countModules (c :: rest) = countModules rest)
    (hrT : runTests s.last_module (alistGet s.module_calls s.last_module) (c :: rest) =
      runTests s.last_module (alistGet s.module_calls s.last_module) rest)
    (hrP : runPending (alistGet s.module_calls s.last_module) (c :: rest) =
      runPending (alistGet s.module_calls s.last_module) rest)
    (hc : SpecConcl S2 s' rest) : SpecConcl s s' (c :: rest) := by
  obtain ⟨i1, i2, i3, i4⟩ := hc
  refine ⟨i1, ?_, ?_, ?_⟩
  · rw [hcnt, ← hM]
    exact i2
  · rw [hrP, ← hM, ← hC]
    exact i3
  · rw [hrT, ← hM, ← hC, ← hB]
    exact i4

theorem consumeCommands_spec (conv : List Nat → Option String) :
    ∀ (cmds : List Command) (s s' : GenState), Inv s →
      consumeCommands conv s cmds = some s' → SpecConcl s s' cmds := by
  intro cmds
  induction cmds with
  | nil =>
    intro s s' hInv h
    have he : some s = some s' := h
    injection he with he
    subst he
    exact ⟨hInv, by simp [countModules], by simp [runPending], by simp [runTests]⟩
  | cons c rest ih =>
    intro s s' hInv h
    obtain ⟨line, kind⟩ := c
    have tf1 : testFrags (stepState s line).buffer = testFrags s.buffer := by
      show testFrags (s.buffer ++ [Fragment.lineComment line]) = testFrags s.buffer
      exact testFrags_snoc_lineComment s.buffer line
    have hInv1 : Inv (stepState s line) := hInv
    cases kind with
    | Module m name =>
      have h1 : (match visit_module conv (stepState s line) m name with
          | none => none
          | some s2 => consumeCommands conv s2 rest) = some s' := h
      cases hw : conv m with
      | none =>
        rw [visit_module_none conv (stepState s line) m name hw] at h1
        exact Option.noConfusion h1
      | some w =>
        rw [visit_module_eq conv (stepState s line) m name w hw] at h1
        have h2 : consumeCommands conv (moduleState (stepState s line) w) rest =
            some s' := h1
        have hmcS1 : (stepState s line).module_calls = [] ∨
            ∃ cs, (stepState s line).module_calls =
              [((stepState s line).last_module, cs)] := hInv.2
        have hbuf : (flush_module_calls (stepState s line)
            (stepState s line).last_module).buffer =
            (stepState s line).buffer ++
              (if alistGet s.module_calls s.last_module = [] then []
               else [Fragment.testModule s.last_module
                  ((alistGet s.module_calls s.last_module).map fmtCall)]) :=
          (flush_self (stepState s line) hmcS1).1
        have hmcF : (flush_module_calls (stepState s line)
            (stepState s line).last_module).module_calls = [] :=
          (flush_self (stepState s line) hmcS1).2.1
        have hlm : (flush_module_calls (stepState s line)
            (stepState s line).last_module).last_module = s.last_module :=
          (flush_self (stepState s line) hmcS1).2.2.1
        have hInvMS : Inv (moduleState (stepState s line) w) := by
          constructor
          · show 0 ≤ (flush_module_calls (stepState s line)
              (stepState s line).last_module).last_module + 1
            rw [hlm]
            have := hInv.1
            omega
          · left
            show (flush_module_calls (stepState s line)
              (stepState s line).last_module).module_calls = []
            exact hmcF
        obtain ⟨i1, i2, i3, i4⟩ := ih (moduleState (stepState s line) w) s' hInvMS h2
        have eM : (moduleState (stepState s line) w).last_module =
            s.last_module + 1 := by
          show (flush_module_calls (stepState s line)
            (stepState s line).last_module).last_module + 1 = s.last_module + 1
          rw [hlm]
        have eGet : alistGet (moduleState (stepState s line) w).module_calls
            (moduleState (stepState s line) w).last_module = [] := by
          show alistGet (flush_module_calls (stepState s line)
            (stepState s line).last_module).module_calls _ = []
          rw [hmcF]
          rfl
        have eB : testFrags (moduleState (stepState s line) w).buffer =
            testFrags s.buffer ++
              (if alistGet s.module_calls s.last_module = [] then []
               else [((s.last_module : Int),
                  (alistGet s.module_calls s.last_module).map fmtCall)]) := by
          show testFrags ((flush_module_calls (stepState s line)
            (stepState s line).last_module).buffer ++
              [Fragment.createModule _ (escapeModuleString w)]) = _
          rw [testFrags_snoc_createModule, hbuf, testFrags_append, tf1]
          by_cases hp : alistGet s.module_calls s.last_module = []
          · simp [hp, testFrags]
          · simp [hp, testFrags]
        refine ⟨i1, ?_, ?_, ?_⟩
        · have e2 : countModules (⟨line, CommandKind.Module m name⟩ :: rest) =
              1 + countModules rest := by simp [countModules]
          rw [e2]
          rw [eM] at i2
          push_cast at i2 ⊢
          omega
        · have e3 : runPending (alistGet s.module_calls s.last_module)
              (⟨line, CommandKind.Module m name⟩ :: rest) = runPending [] rest := by
            simp [runPending]
          rw [e3]
          rw [eGet] at i3
          exact i3
        · have e4 : runTests s.last_module (alistGet s.module_calls s.last_module)
              (⟨line, CommandKind.Module m name⟩ :: rest) =
              (if alistGet s.module_calls s.last_module = [] then []
               else [(s.last_module, alistGet s.module_calls s.last_module)]) ++
                runTests (s.last_module + 1) [] rest := by
            simp [runTests]
          rw [e4]
          rw [eGet, eM, eB] at i4
          rw [i4, List.map_append, List.append_assoc]
          have e5 : (if alistGet s.module_calls s.last_module = [] then []
              else [((s.last_module : Int),
                alistGet s.module_calls s.last_module)]).map mapCalls =
              (if alistGet s.module_calls s.last_module = [] then []
               else [((s.last_module : Int),
                  (alistGet s.module_calls s.last_module).map fmtCall)]) := by
            by_cases hp : alistGet s.module_calls s.last_module = [] <;>
              simp [hp, mapCalls]
          rw [e5]
    | AssertReturn action expected =>
      cases action with
      | Invoke mo field args =>
        have h2 : consumeCommands conv
            (visit_assert_return (stepState s line)
              (Action.Invoke mo field args) expected) rest = some s' := h
        have hshape : (visit_assert_return (stepState s line)
            (Action.Invoke mo field args) expected).module_calls =
              [(s.last_module,
                alistGet s.module_calls s.last_module ++ [wrapperName line])] := by
          show alistPush s.module_calls s.last_module (wrapperName line) = _
          exact alistPush_shape s.module_calls s.last_module (wrapperName line) hInv.2
        have hInv2 : Inv (visit_assert_return (stepState s line)
            (Action.Invoke mo field args) expected) := by
          constructor
          · show 0 ≤ s.last_module
            exact hInv.1
          · right
            exact ⟨alistGet s.module_calls s.last_module ++ [wrapperName line],
              by rw [hshape]; rfl⟩
        have hget2 : alistGet (visit_assert_return (stepState s line)
            (Action.Invoke mo field args) expected).module_calls
            (visit_assert_return (stepState s line)
              (Action.Invoke mo field args) expected).last_module =
            alistGet s.module_calls s.last_module ++ [wrapperName line] := by
          rw [hshape]
          exact alistGet_single s.last_module _
        have tf3 : testFrags (visit_assert_return (stepState s line)
            (Action.Invoke mo field args) expected).buffer = testFrags s.buffer := by
          show testFrags ((stepState s line).buffer ++
            [Fragment.wrapper _ _ _ _ _ _]) = _
          rw [testFrags_snoc_wrapper, tf1]
        obtain ⟨i1, i2, i3, i4⟩ := ih (visit_assert_return (stepState s line)
          (Action.Invoke mo field args) expected) s' hInv2 h2
        refine ⟨i1, ?_, ?_, ?_⟩
        · have e2 : countModules (⟨line,
              CommandKind.AssertReturn (Action.Invoke mo field args) expected⟩ ::
                rest) = countModules rest := by simp [countModules]
          rw [e2]
          exact i2
        · have e3 : runPending (alistGet s.module_calls s.last_module)
              (⟨line, CommandKind.AssertReturn (Action.Invoke mo field args)
                expected⟩ :: rest) =
              runPending (alistGet s.module_calls s.last_module ++
                [wrapperName line]) rest := by simp [runPending]
          rw [e3, ← hget2]
          exact i3
        · have e4 : runTests s.last_module (alistGet s.module_calls s.last_module)
              (⟨line, CommandKind.AssertReturn (Action.Invoke mo field args)
                expected⟩ :: rest) =
              runTests s.last_module (alistGet s.module_calls s.last_module ++
                [wrapperName line]) rest := by simp [runTests]
          rw [e4, ← hget2, ← tf3]
          exact i4
      | Get mo field =>
        have h2 : consumeCommands conv (stepState s line) rest = some s' := h
        exact specConcl_silent s (stepState s line) s' _ rest rfl rfl tf1
          (by simp [countModules]) (by simp [runTests]) (by simp [runPending])
          (ih (stepState s line) s' hInv1 h2)
    | AssertInvalid m msg =>
      have h2 : consumeCommands conv
          (visit_assert_invalid (stepState s line) m) rest = some s' := h
      have tf2 : testFrags (visit_assert_invalid (stepState s line) m).buffer =
          testFrags s.buffer := by
        show testFrags ((stepState s line).buffer ++
          [Fragment.assertInvalidTest line m]) = _
        rw [testFrags_snoc_assertInvalid, tf1]
      have hInv2 : Inv (visit_assert_invalid (stepState s line) m) := hInv
      exact specConcl_silent s (visit_assert_invalid (stepState s line) m) s' _
        rest rfl rfl tf2
        (by simp [countModules]) (by simp [runTests]) (by simp [runPending])
        (ih _ s' hInv2 h2)
    | AssertMalformed m msg =>
      have h2 : consumeCommands conv
          (visit_assert_malformed (stepState s line) m) rest = some s' := h
      have tf2 : testFrags (visit_assert_malformed (stepState s line) m).buffer =
          testFrags s.buffer := by
        show testFrags ((stepState s line).buffer ++
          [Fragment.assertMalformedTest line m]) = _
        rw [testFrags_snoc_assertMalformed, tf1]
      have hInv2 : Inv (visit_assert_malformed (stepState s line) m) := hInv
      exact specConcl_silent s (visit_assert_malformed (stepState s line) m) s' _
        rest rfl rfl tf2
        (by simp [countModules]) (by simp [runTests]) (by simp [runPending])
        (ih _ s' hInv2 h2)
    | AssertReturnCanonicalNan a =>
      have h2 : consumeCommands conv (stepState s line) rest = some s' := h
      exact specConcl_silent s (stepState s line) s' _ rest rfl rfl tf1
        (by simp [countModules]) (by simp [runTests]) (by simp [runPending])
        (ih (stepState s line) s' hInv1 h2)
    | AssertReturnArithmeticNan a =>
      have h2 : consumeCommands conv (stepState s line) rest = some s' := h
      exact specConcl_silent s (stepState s line) s' _ rest rfl rfl tf1
        (by simp [countModules]) (by simp [runTests]) (by simp [runPending])
        (ih (stepState s line) s' hInv1 h2)
    | AssertTrap a msg =>
      have h2 : consumeCommands conv (stepState s line) rest = some s' := h
      exact specConcl_silent s (stepState s line) s' _ rest rfl rfl tf1
        (by simp [countModules]) (by simp [runTests]) (by simp [runPending])
        (ih (stepState s line) s' hInv1 h2)
    | AssertUninstantiable m msg =>
      have h2 : consumeCommands conv (stepState s line) rest = some s' := h
      exact specConcl_silent s (stepState s line) s' _ rest rfl rfl tf1
        (by simp [countModules]) (by simp [runTests]) (by simp [runPending])
        (ih (stepState s line) s' hInv1 h2)
    | AssertExhaustion a =>
      have h2 : consumeCommands conv (stepState s line) rest = some s' := h
      exact specConcl_silent s (stepState s line) s' _ rest rfl rfl tf1
        (by simp [countModules]) (by simp [runTests]) (by simp [runPending])
        (ih (stepState s line) s' hInv1 h2)
    | AssertUnlinkable m msg =>
      have h2 : consumeCommands conv (stepState s line) rest = some s' := h
      exact specConcl_silent s (stepState s line) s' _ rest rfl rfl tf1
        (by simp [countModules]) (by simp [runTests]) (by simp [runPending])
        (ih (stepState s line) s' hInv1 h2)
    | Register n an =>
      have h2 : consumeCommands conv (stepState s line) rest = some s' := h
      exact specConcl_silent s (stepState s line) s' _ rest rfl rfl tf1
        (by simp [countModules]) (by simp [runTests]) (by simp [runPending])
        (ih (stepState s line) s' hInv1 h2)
    | PerformAction a =>
      have h2 : consumeCommands conv (stepState s line) rest = some s' := h
      exact specConcl_silent s (stepState s line) s' _ rest rfl rfl tf1
        (by simp [countModules]) (by simp [runTests]) (by simp [runPending])
        (ih (stepState s line) s' hInv1 h2)

theorem consume_spec (conv : List Nat → Option String) (filename : String)
    (cmds : List Command) (s' : GenState)
    (h : consume conv (initState filename) cmds = some s') :
    s'.last_module = (countModules cmds : Int) ∧
    (1 ≤ (countModules cmds : Int) → s'.module_calls = []) ∧
    testFrags s'.buffer = (allTests cmds).map mapCalls := by
  have h0 : (consumeCommands conv (startState filename) cmds).map flushAll =
      some s' := h
  cases hc : consumeCommands conv (startState filename) cmds with
  | none =>
    rw [hc] at h0
    exact absurd h0 (by simp)
  | some s1 =>
    rw [hc] at h0
    have hs' : s' = flushAll s1 := by
      injection h0 with e
      exact e.symm
    have hInv0 : Inv (startState filename) := ⟨le_refl 0, Or.inl rfl⟩
    obtain ⟨i1, i2, i3, i4⟩ :=
      consumeCommands_spec conv cmds (startState filename) s1 hInv0 hc
    have i2' : s1.last_module = 0 + (countModules cmds : Int) := i2
    have hM1 : s1.last_module = (countModules cmds : Int) := by
      rw [i2']
      exact zero_add _
    have i3' : alistGet s1.module_calls s1.last_module = runPending [] cmds := i3
    have i4' : testFrags s1.buffer = (runTests 0 [] cmds).map mapCalls := i4
    obtain ⟨fb, fm, fl⟩ := flushAll_spec s1 i1
    rw [i3'] at fb
    rw [hM1] at fb
    refine ⟨?_, ?_, ?_⟩
    · rw [hs', fl, hM1]
    · intro hN
      rw [hs']
      apply fm
      rw [hM1]
      exact hN
    · rw [hs', fb, testFrags_append, i4']
      unfold allTests
      rw [List.map_append]
      congr 1
      by_cases hc2 : 1 ≤ (countModules cmds : Int) ∧ runPending [] cmds ≠ []
      · simp only [if_pos hc2]
        simp [testFrags, mapCalls]
      · simp only [if_neg hc2]
        simp [testFrags]

theorem callsFrom_lt (i : Int) : ∀ (cmds : List Command) (M : Int), i < M →
    callsFrom M i cmds = [] := by
  intro cmds
  induction cmds with
  | nil =>
    intro M _
    rfl
  | cons c rest ih =>
    intro M h
    obtain ⟨line, kind⟩ := c
    cases kind with
    | Module m name => exact ih (M + 1) (by omega)
    | AssertReturn act e =>
      cases act with
      | Invoke mo f args =>
        show (if M = i then [wrapperName line] else []) ++ callsFrom M i rest = []
        rw [if_neg (by omega), ih M h]
        rfl
      | Get mo f => exact ih M h
    | AssertReturnCanonicalNan a => exact ih M h
    | AssertReturnArithmeticNan a => exact ih M h
    | AssertTrap a msg => exact ih M h
    | AssertInvalid m msg => exact ih M h
    | AssertMalformed m msg => exact ih M h
    | AssertUninstantiable m msg => exact ih M h
    | AssertExhaustion a => exact ih M h
    | AssertUnlinkable m msg => exact ih M h
    | Register n an => exact ih M h
    | PerformAction a => exact ih M h

theorem runPending_eq : ∀ (cmds : List Command) (M : Int) (pending : List String),
    runPending pending cmds =
      (if countModules cmds = 0 then pending else []) ++
        callsFrom M (M + (countModules cmds : Int)) cmds := by
  intro cmds
  induction cmds with
  | nil =>
    intro M pending
    simp [runPending, countModules, callsFrom]
  | cons c rest ih =>
    intro M pending
    obtain ⟨line, kind⟩ := c
    cases kind with
    | Module m name =>
      have hidx : M + ((countModules (⟨line, CommandKind.Module m name⟩ :: rest) : Nat) : Int) =
          (M + 1) + (countModules rest : Int) := by
        simp [countModules]
        ring
      have hcnt : countModules (⟨line, CommandKind.Module m name⟩ :: rest) =
          1 + countModules rest := by simp [countModules]
      rw [hidx, hcnt, if_neg (by omega)]
      show runPending [] rest =
        [] ++ callsFrom (M + 1) (M + 1 + (countModules rest : Int)) rest
      rw [ih (M + 1) [], ite_self]
    | AssertReturn act e =>
      cases act with
      | Invoke mo f args =>
        have hcnt : countModules
            (⟨line, CommandKind.AssertReturn (Action.Invoke mo f args) e⟩ :: rest) =
            countModules rest := by simp [countModules]
        rw [hcnt]
        show runPending (pending ++ [wrapperName line]) rest =
          (if countModules rest = 0 then pending else []) ++
            ((if M = M + (countModules rest : Int) then [wrapperName line] else []) ++
              callsFrom M (M + (countModules rest : Int)) rest)
        rw [ih M (pending ++ [wrapperName line])]
        by_cases hz : countModules rest = 0
        · rw [if_pos hz, if_pos hz, if_pos (by rw [hz]; simp)]
          simp [List.append_assoc]
        · have hz' : (countModules rest : Int) ≠ 0 := by exact_mod_cast hz
          rw [if_neg hz, if_neg hz, if_neg (by omega)]
          simp
      | Get mo f =>
        have hcnt : countModules
            (⟨line, CommandKind.AssertReturn (Action.Get mo f) e⟩ :: rest) =
            countModules rest := by simp [countModules]
        rw [hcnt]
        exact ih M pending
    | AssertReturnCanonicalNan a =>
      rw [show countModules (⟨line, CommandKind.AssertReturnCanonicalNan a⟩ :: rest) =
        countModules rest from by simp [countModules]]
      exact ih M pending
    | AssertReturnArithmeticNan a =>
      rw [show countModules (⟨line, CommandKind.AssertReturnArithmeticNan a⟩ :: rest) =
        countModules rest from by simp [countModules]]
      exact ih M pending
    | AssertTrap a msg =>
      rw [show countModules (⟨line, CommandKind.AssertTrap a msg⟩ :: rest) =
        countModules rest from by simp [countModules]]
      exact ih M pending
    | AssertInvalid m msg =>
      rw [show countModules (⟨line, CommandKind.AssertInvalid m msg⟩ :: rest) =
        countModules rest from by simp [countModules]]
      exact ih M pending
    | AssertMalformed m msg =>
      rw [show countModules (⟨line, CommandKind.AssertMalformed m msg⟩ :: rest) =
        countModules rest from by simp [countModules]]
      exact ih M pending
    | AssertUninstantiable m msg =>
      rw [show countModules (⟨line, CommandKind.AssertUninstantiable m msg⟩ :: rest) =
        countModules rest from by simp [countModules]]
      exact ih M pending
    | AssertExhaustion a =>
      rw [show countModules (⟨line, CommandKind.AssertExhaustion a⟩ :: rest) =
        countModules rest from by simp [countModules]]
      exact ih M pending
    | AssertUnlinkable m msg =>
      rw [show countModules (⟨line, CommandKind.AssertUnlinkable m msg⟩ :: rest) =
        countModules rest from by simp [countModules]]
      exact ih M pending
    | Register n an =>
      rw [show countModules (⟨line, CommandKind.Register n an⟩ :: rest) =
        countModules rest from by simp [countModules]]
      exact ih M pending
    | PerformAction a =>
      rw [show countModules (⟨line, CommandKind.PerformAction a⟩ :: rest) =
        countModules rest from by simp [countModules]]
      exact ih M pending

theorem selAt_append (i : Int) (a b : List (Int × List String)) :
    selAt i (a ++ b) = selAt i a ++ selAt i b := by
  simp [selAt, List.filterMap_append]

theorem selAt_single_eq (i : Int) (p : List String) : selAt i [(i, p)] = [p] := by
  simp [selAt]

theorem selAt_single_ne (i M : Int) (p : List String) (h : M ≠ i) :
    selAt i [(M, p)] = [] := by
  simp [selAt, h]

theorem runTests_selAt :
    ∀ (cmds : List Command) (M : Int) (pending : List String) (i : Int),
      selAt i (runTests M pending cmds) =
        if M ≤ i ∧ i < M + (countModules cmds : Int) then
          (if (if i = M then pending else []) ++ callsFrom M i cmds = [] then []
           else [(if i = M then pending else []) ++ callsFrom M i cmds])
        else [] := by
  intro cmds
  induction cmds with
  | nil =>
    intro M pending i
    rw [if_neg (by simp [countModules])]
    rfl
  | cons c rest ih =>
    intro M pending i
    obtain ⟨line, kind⟩ := c
    cases kind with
    | Module m name =>
      show selAt i ((if pending = [] then [] else [(M, pending)]) ++
          runTests (M + 1) [] rest) =
        if M ≤ i ∧ i < M + ((1 + countModules rest : Nat) : Int) then
          (if (if i = M then pending else []) ++ callsFrom (M + 1) i rest = [] then []
           else [(if i = M then pending else []) ++ callsFrom (M + 1) i rest])
        else []
      rw [selAt_append, ih (M + 1) [] i, ite_self, List.nil_append]
      by_cases hi : i = M
      · subst hi
        rw [if_pos (show i ≤ i ∧ i < i + ((1 + countModules rest : Nat) : Int) from
          ⟨le_refl i, by omega⟩)]
        rw [if_pos rfl, callsFrom_lt i rest (i + 1) (by omega), List.append_nil]
        rw [if_neg (show ¬ (i + 1 ≤ i ∧ i < i + 1 + (countModules rest : Int)) from
          by omega), List.append_nil]
        by_cases hp : pending = []
        · rw [if_pos hp, if_pos hp]
          rfl
        · rw [if_neg hp, if_neg hp]
          exact selAt_single_eq i pending
      · have hfirst : selAt i (if pending = [] then [] else [(M, pending)]) = [] := by
          by_cases hp : pending = []
          · rw [if_pos hp]
            rfl
          · rw [if_neg hp]
            exact selAt_single_ne i M pending (fun e => hi e.symm)
        rw [hfirst, List.nil_append, if_neg hi, List.nil_append]
        have hcond : (M + 1 ≤ i ∧ i < M + 1 + (countModules rest : Int)) ↔
            (M ≤ i ∧ i < M + ((1 + countModules rest : Nat) : Int)) := by omega
        simp only [hcond]
    | AssertReturn act e =>
      cases act with
      | Invoke mo f args =>
        rw [show countModules (⟨line,
            CommandKind.AssertReturn (Action.Invoke mo f args) e⟩ :: rest) =
          countModules rest from by simp [countModules]]
        show selAt i (runTests M (pending ++ [wrapperName line]) rest) =
          if M ≤ i ∧ i < M + (countModules rest : Int) then
            (if (if i = M then pending else []) ++
                ((if M = i then [wrapperName line] else []) ++ callsFrom M i rest) =
                [] then []
             else [(if i = M then pending else []) ++
                ((if M = i then [wrapperName line] else []) ++ callsFrom M i rest)])
          else []
        have heq : (if i = M then pending else []) ++
            ((if M = i then [wrapperName line] else []) ++ callsFrom M i rest) =
            (if i = M then pending ++ [wrapperName line] else []) ++
              callsFrom M i rest := by
          by_cases hi : i = M
          · subst hi
            simp [List.append_assoc]
          · have hi' : M ≠ i := fun e => hi e.symm
            simp [hi, hi']
        rw [heq]
        exact ih M (pending ++ [wrapperName line]) i
      | Get mo f =>
        rw [show countModules (⟨line,
            CommandKind.AssertReturn (Action.Get mo f) e⟩ :: rest) =
          countModules rest from by simp [countModules]]
        exact ih M pending i
    | AssertReturnCanonicalNan a =>
      rw [show countModules (⟨line, CommandKind.AssertReturnCanonicalNan a⟩ :: rest) =
        countModules rest from by simp [countModules]]
      exact ih M pending i
    | AssertReturnArithmeticNan a =>
      rw [show countModules (⟨line, CommandKind.AssertReturnArithmeticNan a⟩ :: rest) =
        countModules rest from by simp [countModules]]
      exact ih M pending i
    | AssertTrap a msg =>
      rw [show countModules (⟨line, CommandKind.AssertTrap a msg⟩ :: rest) =
        countModules rest from by simp [countModules]]
      exact ih M pending i
    | AssertInvalid m msg =>
      rw [show countModules (⟨line, CommandKind.AssertInvalid m msg⟩ :: rest) =
        countModules rest from by simp [countModules]]
      exact ih M pending i
    | AssertMalformed m msg =>
      rw [show countModules (⟨line, CommandKind.AssertMalformed m msg⟩ :: rest) =
        countModules rest from by simp [countModules]]
      exact ih M pending i
    | AssertUninstantiable m msg =>
      rw [show countModules (⟨line, CommandKind.AssertUninstantiable m msg⟩ :: rest) =
        countModules rest from by simp [countModules]]
      exact ih M pending i
    | AssertExhaustion a =>
      rw [show countModules (⟨line, CommandKind.AssertExhaustion a⟩ :: rest) =
        countModules rest from by simp [countModules]]
      exact ih M pending i
    | AssertUnlinkable m msg =>
      rw [show countModules (⟨line, CommandKind.AssertUnlinkable m msg⟩ :: rest) =
        countModules rest from by simp [countModules]]
      exact ih M pending i
    | Register n an =>
      rw [show countModules (⟨line, CommandKind.Register n an⟩ :: rest) =
        countModules rest from by simp [countModules]]
      exact ih M pending i
    | PerformAction a =>
      rw [show countModules (⟨line, CommandKind.PerformAction a⟩ :: rest) =
        countModules rest from by simp [countModules]]
      exact ih M pending i

theorem selAt_map (i : Int) (l : List (Int × List String)) :
    selAt i (l.map mapCalls) = (selAt i l).map (List.map fmtCall) := by
  induction l with
  | nil => rfl
  | cons p rest ih =>
    have ih' := ih
    simp only [selAt, List.filterMap_cons, List.map_cons] at ih' ⊢
    by_cases hp : p.1 = i
    · simp [mapCalls, hp, ih']
    · simp [mapCalls, hp, ih']

theorem allTests_selAt (cmds : List Command) (i : Int)
    (h0 : 0 ≤ i) (h2 : i ≤ (countModules cmds : Int))
    (hN : 1 ≤ (countModules cmds : Int)) :
    selAt i (allTests cmds) =
      if callsForModule cmds i = [] then [] else [callsForModule cmds i] := by
  have hrp : runPending [] cmds = callsForModule cmds (countModules cmds : Int) := by
    rw [runPending_eq cmds 0 [], ite_self, List.nil_append]
    unfold callsForModule
    rw [zero_add]
  unfold allTests
  rw [selAt_append, runTests_selAt cmds 0 [] i, ite_self, List.nil_append]
  by_cases hiN : i = (countModules cmds : Int)
  · rw [if_neg (show ¬ (0 ≤ i ∧ i < 0 + (countModules cmds : Int)) from by omega)]
    rw [List.nil_append, hrp, ← hiN]
    by_cases hemp : callsForModule cmds i = []
    · rw [if_pos hemp,
        if_neg (show ¬ (1 ≤ i ∧ callsForModule cmds i ≠ []) from
          fun h => h.2 hemp)]
      rfl
    · rw [if_neg hemp, if_pos ⟨by omega, hemp⟩]
      exact selAt_single_eq i _
  · rw [if_pos ⟨h0, by omega⟩]
    have hend : selAt i
        (if 1 ≤ (countModules cmds : Int) ∧ runPending [] cmds ≠ [] then
          [((countModules cmds : Int), runPending [] cmds)]
        else []) = [] := by
      by_cases hc : 1 ≤ (countModules cmds : Int) ∧ runPending [] cmds ≠ []
      · rw [if_pos hc]
        exact selAt_single_ne i _ _ (fun e => hiN e.symm)
      · rw [if_neg hc]
        rfl
    rw [hend, List.append_nil]
    unfold callsForModule
    rfl

/-- C2: for every script run that completes, each module index `i` in
`[1, N]` (with `N` the number of module-definition commands) whose ledger
received at least one assert-return wrapper appears in exactly one
aggregating test function in the output buffer; a module with an empty ledger
gets none; and the single aggregating test invokes the module's wrappers in
exactly the order the corresponding assert-return commands were visited. -/
theorem model_module_tests (conv : List Nat → Option String) (filename : String)
    (cmds : List Command) (s' : GenState) (i : Int)
    (hrun : consume conv (initState filename) cmds = some s')
    (h1 : 1 ≤ i) (h2 : i ≤ (countModules cmds : Int)) :
    testsAtIdx i s'.buffer =
      if callsForModule cmds i = [] then []
      else [(callsForModule cmds i).map fmtCall] := by
  obtain ⟨_, _, ht⟩ := consume_spec conv filename cmds s' hrun
  unfold testsAtIdx
  rw [ht, selAt_map, allTests_selAt cmds i (by omega) h2 (by omega)]
  by_cases hp : callsForModule cmds i = []
  · rw [if_pos hp, if_pos hp]
    rfl
  · rw [if_neg hp, if_neg hp]
    rfl

theorem model_module_tests_witness :
    consume convSimple (initState "w.wast") cmdsW = some sW ∧
    ((1 : Int) ≤ 1 ∧ (1 : Int) ≤ (countModules cmdsW : Int)) ∧
    testsAtIdx 1 sW.buffer =
      (if callsForModule cmdsW 1 = [] then []
       else [(callsForModule cmdsW 1).map fmtCall]) :=
  ⟨by decide, ⟨by decide, by decide⟩,
    model_module_tests convSimple "w.wast" cmdsW sW 1 (by decide) (by decide)
      (by decide)⟩

/-- C1 (amended): provided at least one module-definition command occurs in
the script, every ledger entry is flushed exactly once before finalization:
the final ledger is empty, and every module index `i` in `[0, N]` — index 0
included, for assert-returns preceding the first module definition — appears
in exactly one aggregating test function when its ledger received entries and
in none otherwise. When no module-definition ever occurs, an entry recorded
under index 0 is never flushed (see the counterexample). -/
theorem model_flush_completeness (conv : List Nat → Option String)
    (filename : String) (cmds : List Command) (s' : GenState) (i : Int)
    (hrun : consume conv (initState filename) cmds = some s')
    (hN : 1 ≤ (countModules cmds : Int))
    (h0 : 0 ≤ i) (h2 : i ≤ (countModules cmds : Int)) :
    s'.module_calls = [] ∧
    testsAtIdx i s'.buffer =
      (if callsForModule cmds i = [] then []
       else [(callsForModule cmds i).map fmtCall]) := by
  obtain ⟨_, hmc, ht⟩ := consume_spec conv filename cmds s' hrun
  refine ⟨hmc hN, ?_⟩
  unfold testsAtIdx
  rw [ht, selAt_map, allTests_selAt cmds i h0 h2 hN]
  by_cases hp : callsForModule cmds i = []
  · rw [if_pos hp, if_pos hp]
    rfl
  · rw [if_neg hp, if_neg hp]
    rfl

theorem model_flush_completeness_witness :
    consume convSimple (initState "c1.wast") cmdsC1 = some sC1 ∧
    ((1 : Int) ≤ (countModules cmdsC1 : Int) ∧ (0 : Int) ≤ 0 ∧
      (0 : Int) ≤ (countModules cmdsC1 : Int)) ∧
    (sC1.module_calls = [] ∧
      testsAtIdx 0 sC1.buffer =
        (if callsForModule cmdsC1 0 = [] then []
         else [(callsForModule cmdsC1 0).map fmtCall])) :=
  ⟨by decide, ⟨by decide, by decide, by decide⟩,
    model_flush_completeness convSimple "c1.wast" cmdsC1 sC1 0 (by decide)
      (by decide) (by decide) (by decide)⟩

/-- C1 counterexample: the claim as stated fails. For a script whose only
command is an assert-return with an invoke action and which defines no module
at all, the wrapper identifier recorded under module index 0 is still in the
ledger when the generator finalizes — the end-of-script loop flushes only
indices `1..=last_module` — and no aggregating test function is ever emitted
for it. -/
theorem model_flush_missed_cex :
    (consume convNone (initState "c.wast") cmdsC0).map
        (fun s => (s.module_calls, testFrags s.buffer)) =
      some ([((0 : Int), [wrapperName 1])], []) := by decide

end BuildSpectests
